import Mathlib

/-!
Verification development for the crofiler C++ entity-name parser and display
layer.  Parsers from `src/cpp/operators.rs`, `src/cpp/templates.rs`,
`src/cpp/anonymous.rs`, `cpparser/src/types/specifiers/mod.rs`,
`cpparser/src/values/literals.rs` are embedded as Lean functions over
`List Char`; the byte-level string truncation of `src/main.rs` and the
activity display of `src/ui/display/activity.rs` are embedded over byte and
code-point lists.  Modules of the repository that are absent from the
source tree (`atoms`, `types`, `values` of `src/cpp`, and the `names`
module of `cpparser`) are modelled from the specification; every such
definition carries a doc comment starting with `Modelled from the spec:`.
-/

namespace Crofiler

/-- Result of a parser over characters: the parsed value and the remaining
input, or `none` on failure (mirrors nom's `IResult`). -/
abbrev PRes (α : Type) := Option (α × List Char)

/-- Character-level tag parser: succeeds iff `t` is a prefix of `s`,
returning the remainder (mirrors nom's `tag`). -/
def tagP : List Char → List Char → Option (List Char)
  | [], s => some s
  | _ :: _, [] => none
  | c :: t, d :: s => if c = d then tagP t s else none

/-- Space or tab, the characters consumed by nom's `space0`/`space1`. -/
def isSpaceChar (c : Char) : Bool := c = ' ' || c = '\t'

/-- Mirrors nom's `space0`: drop leading spaces and tabs. -/
def space0 (s : List Char) : List Char := s.dropWhile isSpaceChar

/-- Mirrors nom's `space1`: at least one space or tab. -/
def space1 (s : List Char) : Option (List Char) :=
  match s with
  | c :: r => if isSpaceChar c then some (space0 r) else none
  | [] => none

/-- First character of an identifier: `[A-Za-z_]`. -/
def isIdentStart (c : Char) : Bool := c.isAlpha || c = '_'

/-- Continuation character of an identifier: `[A-Za-z0-9_]`. -/
def isIdentCont (c : Char) : Bool := c.isAlphanum || c = '_'

/-- Modelled from the spec: the `atoms::keyword` parser of the missing
`src/cpp/atoms.rs` — matches the literal keyword only if not followed by an
identifier continuation character. -/
def keyword (kw : List Char) (s : List Char) : Option (List Char) :=
  match tagP kw s with
  | none => none
  | some r =>
    match r.head? with
    | some c => if isIdentCont c then none else some r
    | none => some r

/-- Modelled from the spec: the `atoms::keywords` parser of the missing
`src/cpp/atoms.rs` — matches the first of a fixed keyword set with the same
trailing-character discipline, returning the matched keyword. -/
def keywords : List (List Char) → List Char → Option (List Char × List Char)
  | [], _ => none
  | kw :: kws, s =>
    match keyword kw s with
    | some r => some (kw, r)
    | none => keywords kws s

/-- Raw identifier text: `[A-Za-z_][A-Za-z0-9_]*` with its remainder. -/
def identStr (s : List Char) : PRes (List Char) :=
  match s with
  | [] => none
  | c :: r =>
    if isIdentStart c then
      let p := r.span isIdentCont
      some (c :: p.1, p.2)
    else none

/-- Keyword list of the C-style primitive type names (spec §4.4). -/
def legacyKeywords : List (List Char) :=
  [String.data "wchar_t", String.data "char8_t", String.data "char16_t",
   String.data "char32_t", String.data "char", String.data "void",
   String.data "bool", String.data "short", String.data "int",
   String.data "long", String.data "signed", String.data "unsigned",
   String.data "float", String.data "double", String.data "__int128"]

/-- Keyword list of the elaborated-type keywords (spec §4.4). -/
def elaboratedKeywords : List (List Char) :=
  [String.data "typename", String.data "class", String.data "struct",
   String.data "enum", String.data "union"]

/-- Modelled from the spec: reserved keywords excluded from identifier
positions where the grammar forbids them (primitive type names, cv
qualifiers, elaborated-type keywords and declarator keywords). -/
def reservedKeywords : List (List Char) :=
  legacyKeywords ++ elaboratedKeywords ++
  [String.data "const", String.data "volatile", String.data "operator",
   String.data "new", String.data "delete", String.data "co_await",
   String.data "decltype", String.data "auto"]

/-- Modelled from the spec: the `atoms::identifier` parser of the missing
`src/cpp/atoms.rs` — matches `[A-Za-z_][A-Za-z0-9_]*`, excluding reserved
keywords. -/
def identifier (s : List Char) : PRes (List Char) :=
  match identStr s with
  | none => none
  | some (t, r) => if t ∈ reservedKeywords then none else some (t, r)

/-- Const/volatile qualifier pair (`ConstVolatile` in the source). -/
structure ConstVolatile where
  is_const : Bool
  is_volatile : Bool
deriving DecidableEq

/-- The empty qualifier set. -/
def cvNone : ConstVolatile := ⟨false, false⟩

/-- Bitwise union of qualifier sets (the `|` operator of the source). -/
def cvUnion (a b : ConstVolatile) : ConstVolatile :=
  ⟨a.is_const || b.is_const, a.is_volatile || b.is_volatile⟩

/-- Modelled from the spec: the `parse_cv` parser (missing from the source
tree) — optional `const`/`volatile`, in any order and any number of times,
combined by union.  The fuel argument bounds the iteration count; the
wrapper passes the input length, which each iteration strictly decreases. -/
def parseCvF : Nat → List Char → ConstVolatile × List Char
  | 0, s => (cvNone, s)
  | f + 1, s =>
    match keyword (String.data "const") s with
    | some r =>
      let p := parseCvF f (space0 r)
      (⟨true, p.1.is_volatile⟩, p.2)
    | none =>
      match keyword (String.data "volatile") s with
      | some r =>
        let p := parseCvF f (space0 r)
        (⟨p.1.is_const, true⟩, p.2)
      | none => (cvNone, s)

/-- Modelled from the spec: `parse_cv` wrapper with sufficient fuel. -/
def parseCv (s : List Char) : ConstVolatile × List Char := parseCvF s.length s

/-- Simple type: an id-expression or a C-style primitive name
(`SimpleType` in `cpparser/src/types/specifiers/mod.rs`; the id-expression
payload is the modelled scoped-identifier list and the legacy payload the
keyword sequence). -/
inductive SimpleType where
  | IdExpression (ids : List (List Char))
  | LegacyName (kws : List (List Char))
deriving DecidableEq

/-- Type specifier: cv qualifiers plus a simple type
(`TypeSpecifier` in `cpparser/src/types/specifiers/mod.rs`). -/
structure TypeSpecifier where
  cv : ConstVolatile
  simple_type : SimpleType
deriving DecidableEq

/-- Pointer and reference declarator kinds (spec §4.4). -/
inductive DeclOp where
  | Ptr
  | LRef
  | RRef
deriving DecidableEq

/-- Modelled from the spec: a `TypeLike` of the missing `src/cpp/types.rs` —
a type specifier followed by a pointer/reference declarator chain, each
declarator with optional cv.  Function-signature suffixes and array extents
are not exercised by the verified claims and are not modelled. -/
structure TypeLike where
  spec : TypeSpecifier
  decls : List (DeclOp × ConstVolatile)
deriving DecidableEq

/-- Modelled from the spec: a `ValueLike` of the missing
`src/cpp/values.rs`, restricted to the alternatives the verified claims
exercise: an integer literal or an id-expression.  Parenthesized, unary and
binary forms are not modelled. -/
inductive ValueLike where
  | IntLit (v : Int)
  | IdExpr (ids : List (List Char))
deriving DecidableEq

/-- Template parameter: type-like or value-like
(`TemplateParameter` in `src/cpp/templates.rs`). -/
inductive TemplateParameter where
  | TypeLike (t : TypeLike)
  | ValueLike (v : ValueLike)
deriving DecidableEq

/-- Template parameter list: `none` is the Ambiguous sentinel produced by
the clang emission `<, void>` (`TemplateParameters` in
`src/cpp/templates.rs`). -/
abbrev TemplateParameters := Option (List TemplateParameter)

/-- Symbols most commonly found in C++ operator names
(`Symbol` in `src/cpp/operators.rs`). -/
inductive Symbol where
  | AddPlus
  | SubNeg
  | MulDeref
  | Div
  | Mod
  | Xor
  | AndRef
  | Or
  | BitNot
  | Not
  | AssignEq
  | Less
  | Greater
  | Comma
deriving DecidableEq

/-- Decode table of the `symbol` parser (`src/cpp/operators.rs`). -/
def symbolOfChar (c : Char) : Option Symbol :=
  match c with
  | '+' => some .AddPlus
  | '-' => some .SubNeg
  | '*' => some .MulDeref
  | '/' => some .Div
  | '%' => some .Mod
  | '^' => some .Xor
  | '&' => some .AndRef
  | '|' => some .Or
  | '~' => some .BitNot
  | '!' => some .Not
  | '=' => some .AssignEq
  | '<' => some .Less
  | '>' => some .Greater
  | ',' => some .Comma
  | _ => none

/-- Parser for symbols most commonly found in C++ operator names
(`symbol` in `src/cpp/operators.rs`): one character, decoded via the
symbol table. -/
def symbol (s : List Char) : PRes Symbol :=
  match s with
  | [] => none
  | c :: r => (symbolOfChar c).map (fun sym => (sym, r))

/-- C++ operators that can be overloaded (`Operator` in
`src/cpp/operators.rs`). -/
inductive Operator where
  | Basic (symbol : Symbol) (twice : Bool) (equal : Bool)
  | Deref (star : Bool)
  | Spaceship
  | CallIndex (is_index : Bool)
  | CustomLiteral (suffix : List Char)
  | NewDelete (is_delete : Bool) (array : Bool)
  | CoAwait
  | Conversion (ty : TypeLike)
deriving DecidableEq

/-- Modelled from the spec: the tail of a legacy primitive name — further
space-separated primitive keywords.  Fuel bounds iteration; each successful
step consumes at least one character. -/
def legacyTailF : Nat → List Char → List (List Char) × List Char
  | 0, s => ([], s)
  | f + 1, s =>
    match space1 s with
    | none => ([], s)
    | some r =>
      match keywords legacyKeywords r with
      | none => ([], s)
      | some (kw, r2) =>
        let p := legacyTailF f r2
        (kw :: p.1, p.2)

/-- Modelled from the spec: the `legacy_name` parser of the missing
`cpparser/src/types/specifiers/legacy.rs` — a space-separated combination
of C primitive type keywords; the canonical variant is recorded as the
keyword sequence (combination validity beyond non-emptiness is not
exercised by the verified claims and is not modelled). -/
def legacy_name (s : List Char) : PRes SimpleType :=
  match keywords legacyKeywords s with
  | none => none
  | some (kw, r) =>
    let p := legacyTailF r.length r
    some (.LegacyName (kw :: p.1), p.2)

/-- Modelled from the spec: the tail of a scoped id-expression — repeated
`::`-separated identifiers.  Fuel bounds iteration. -/
def idExprTailF : Nat → List Char → List (List Char) × List Char
  | 0, s => ([], s)
  | f + 1, s =>
    match tagP (String.data "::") s with
    | none => ([], s)
    | some r =>
      match identifier r with
      | none => ([], s)
      | some (id1, r2) =>
        let p := idExprTailF f r2
        (id1 :: p.1, p.2)

/-- Modelled from the spec: the `id_expression` parser of the missing
`cpparser/src/names/scopes.rs` — a sequence of scope identifiers joined by
`::` ending in an unqualified identifier.  Template parameters, operator
names and the other unqualified-id forms are not exercised by the verified
claims and are not modelled. -/
def id_expression (s : List Char) : PRes (List (List Char)) :=
  match identifier s with
  | none => none
  | some (id0, r) =>
    let p := idExprTailF r.length r
    some (id0 :: p.1, p.2)

/-- Parser recognizing type specifiers (`type_specifier` in
`cpparser/src/types/specifiers/mod.rs`): cv, then a legacy primitive name
or an id-expression optionally prefixed by an elaborated-type keyword plus
whitespace (prefix consumed and discarded), then cv; the two cv sets are
united. -/
def type_specifier (s : List Char) : PRes TypeSpecifier :=
  let p1 := parseCv s
  let s2 := space0 p1.2
  let simple : PRes SimpleType :=
    match legacy_name s2 with
    | some v => some v
    | none =>
      let s2b :=
        match keywords elaboratedKeywords s2 with
        | some (_, r) =>
          match space1 r with
          | some r2 => r2
          | none => s2
        | none => s2
      match id_expression s2b with
      | some (ids, r) => some (.IdExpression ids, r)
      | none => none
  match simple with
  | none => none
  | some (st, s3) =>
    let p2 := parseCv (space0 s3)
    some (⟨cvUnion p1.1 p2.1, st⟩, p2.2)

/-- Modelled from the spec: the pointer/reference declarator chain of a
`TypeLike` — zero or more of `*`, `&`, `&&`, each optionally followed by
cv.  Fuel bounds iteration. -/
def declTailF : Nat → List Char → List (DeclOp × ConstVolatile) × List Char
  | 0, s => ([], s)
  | f + 1, s =>
    let s1 := space0 s
    let step : Option (DeclOp × List Char) :=
      match tagP (String.data "&&") s1 with
      | some r => some (.RRef, r)
      | none =>
        match s1 with
        | '&' :: r => some (.LRef, r)
        | '*' :: r => some (.Ptr, r)
        | _ => none
    match step with
    | none => ([], s)
    | some (op, r) =>
      let pcv := parseCv (space0 r)
      let p := declTailF f pcv.2
      ((op, pcv.1) :: p.1, p.2)

/-- Modelled from the spec: the `type_like` parser of the missing
`src/cpp/types.rs` — a type specifier followed by the declarator chain. -/
def type_like (s : List Char) : PRes TypeLike :=
  match type_specifier s with
  | none => none
  | some (ts, r) =>
    let p := declTailF r.length r
    some (⟨ts, p.1⟩, p.2)

/-- Digit value of an ASCII digit character. -/
def digitVal (c : Char) : Nat := c.toNat - 48

/-- Numeric value of a digit run, most significant first. -/
def natOfDigits (l : List Char) : Nat :=
  l.foldl (fun a c => 10 * a + digitVal c) 0

/-- Modelled from the spec: the `value_like` parser of the missing
`src/cpp/values.rs`, restricted to the alternatives the verified claims
exercise: an integer literal (optional sign, digit run) or an
id-expression. -/
def value_like (s : List Char) : PRes ValueLike :=
  let sgn : Bool × List Char :=
    match s with
    | '-' :: r => (true, r)
    | r => (false, r)
  let pd := sgn.2.span Char.isDigit
  if pd.1 ≠ [] then
    some (.IntLit ((if sgn.1 then -1 else 1) * (natOfDigits pd.1 : Int)), pd.2)
  else
    match id_expression s with
    | some (ids, r) => some (.IdExpr ids, r)
    | none => none

/-- Parser recognizing a single template parameter (`template_parameter` in
`src/cpp/templates.rs`): a type-like, else a value-like. -/
def template_parameter (s : List Char) : PRes TemplateParameter :=
  match type_like s with
  | some (t, r) => some (.TypeLike t, r)
  | none =>
    match value_like s with
    | some (v, r) => some (.ValueLike v, r)
    | none => none

/-- Tail of nom's `separated_list0(char(',').and(space0), template_parameter)`:
further `, `-separated parameters; a separator not followed by a parameter
is left unconsumed.  Fuel bounds iteration. -/
def sepParamsTailF : Nat → List Char → List TemplateParameter × List Char
  | 0, s => ([], s)
  | f + 1, s =>
    match s with
    | ',' :: r =>
      match template_parameter (space0 r) with
      | none => ([], s)
      | some (tp, r2) =>
        let p := sepParamsTailF f r2
        (tp :: p.1, p.2)
    | _ => ([], s)

/-- Mirrors nom's `separated_list0(char(',').and(space0), template_parameter)`:
a possibly empty comma-separated parameter list. -/
def sepParams (s : List Char) : List TemplateParameter × List Char :=
  match template_parameter s with
  | none => ([], s)
  | some (tp, r) =>
    let p := sepParamsTailF r.length r
    (tp :: p.1, p.2)

/-- Parser recognizing a set of template parameters (`template_parameters`
in `src/cpp/templates.rs`): a `<`-delimited comma-separated list, else the
literal `<, void>` which produces the Ambiguous sentinel `none`. -/
def template_parameters (s : List Char) : PRes TemplateParameters :=
  let listBranch : PRes TemplateParameters :=
    match s with
    | '<' :: r =>
      let p := sepParams r
      match space0 p.2 with
      | '>' :: r2 => some (some p.1, r2)
      | _ => none
    | _ => none
  match listBranch with
  | some v => some v
  | none =>
    match tagP (String.data "<, void>") s with
    | some r => some (none, r)
    | none => none

/-- Parser for arithmetic and comparison operators
(`arithmetic_or_comparison::<LEN>` in `src/cpp/operators.rs`): decodes 1,
2 or 3 consecutive operator symbols; the source panics on any other `LEN`
(modelled as failure, never invoked). -/
def arithmetic_or_comparison (len : Nat) (s : List Char) : PRes Operator :=
  match len with
  | 1 =>
    match symbol s with
    | some (sym, r) => some (.Basic sym false false, r)
    | none => none
  | 2 =>
    match symbol s with
    | none => none
    | some (s1, r1) =>
      match symbol r1 with
      | none => none
      | some (s2, r2) =>
        if s2 = .AssignEq then some (.Basic s1 false true, r2)
        else if s2 = s1 then some (.Basic s1 true false, r2)
        else if s1 = .SubNeg ∧ s2 = .Greater then some (.Deref false, r2)
        else none
  | 3 =>
    match symbol s with
    | none => none
    | some (s1, r1) =>
      match symbol r1 with
      | none => none
      | some (s2, r2) =>
        match symbol r2 with
        | none => none
        | some (s3, r3) =>
          if s2 = s1 ∧ s3 = .AssignEq then some (.Basic s1 true true, r3)
          else if s1 = .SubNeg ∧ s2 = .Greater ∧ s3 = .MulDeref then
            some (.Deref true, r3)
          else if s1 = .Less ∧ s2 = .AssignEq ∧ s3 = .Greater then
            some (.Spaceship, r3)
          else none
  | _ => none

/-- Parser trying an arithmetic or comparison operator name, optionally
followed by template parameters, rejected when an operator symbol is queued
next (`arith_and_templates::<LEN>` in `src/cpp/operators.rs`). -/
def arith_and_templates (len : Nat) (s : List Char) :
    PRes (Operator × Option TemplateParameters) :=
  match arithmetic_or_comparison len s with
  | none => none
  | some (op, r1) =>
    let pt : Option TemplateParameters × List Char :=
      match template_parameters r1 with
      | some (tps, r) => (some tps, r)
      | none => (none, r1)
    match symbol pt.2 with
    | some _ => none
    | none => some ((op, pt.1), pt.2)

/-- Parser for bracket pair operators (`call_or_index` in
`src/cpp/operators.rs`). -/
def call_or_index (s : List Char) : PRes Operator :=
  match tagP (String.data "()") s with
  | some r => some (.CallIndex false, r)
  | none =>
    match tagP (String.data "[]") s with
    | some r => some (.CallIndex true, r)
    | none => none

/-- Parser for custom literal operators (`custom_literal` in
`src/cpp/operators.rs`). -/
def custom_literal (s : List Char) : PRes Operator :=
  match tagP (String.data "\"\"") s with
  | none => none
  | some r =>
    match identifier (space0 r) with
    | some (id1, r2) => some (.CustomLiteral id1, r2)
    | none => none

/-- Parser for allocation and deallocation functions (`new_or_delete` in
`src/cpp/operators.rs`). -/
def new_or_delete (s : List Char) : PRes Operator :=
  let kw : Option (Bool × List Char) :=
    match keyword (String.data "new") s with
    | some r => some (false, r)
    | none =>
      match keyword (String.data "delete") s with
      | some r => some (true, r)
      | none => none
  match kw with
  | none => none
  | some (is_delete, r) =>
    match tagP (String.data "[]") r with
    | some r2 => some (.NewDelete is_delete true, r2)
    | none => some (.NewDelete is_delete false, r)

/-- Parser for the co_await operator (`co_await` in
`src/cpp/operators.rs`). -/
def co_await (s : List Char) : PRes Operator :=
  match keyword (String.data "co_await") s with
  | some r => some (.CoAwait, r)
  | none => none

/-- The template-oblivious alternatives of `operator_overload`
(`src/cpp/operators.rs`): bracket pair or custom literal, else after one
space new/delete, co_await or a type conversion, in each case followed by
an optional template parameter list. -/
def template_oblivious (s : List Char) :
    PRes (Operator × Option TemplateParameters) :=
  let core : PRes Operator :=
    match call_or_index s with
    | some v => some v
    | none =>
      match custom_literal s with
      | some v => some v
      | none =>
        match s with
        | ' ' :: r =>
          match new_or_delete r with
          | some v => some v
          | none =>
            match co_await r with
            | some v => some v
            | none =>
              match type_like r with
              | some (t, rr) => some (.Conversion t, rr)
              | none => none
        | _ => none
  match core with
  | none => none
  | some (op, r) =>
    match template_parameters r with
    | some (tps, r2) => some ((op, some tps), r2)
    | none => some ((op, none), r)

/-- Parser for any supported operator overload (`operator_overload` in
`src/cpp/operators.rs`): the `operator` keyword, then arithmetic
candidates at lengths 1, 2, 3 in this order, else the template-oblivious
alternatives. -/
def operator_overload (s : List Char) :
    PRes (Operator × Option TemplateParameters) :=
  match keyword (String.data "operator") s with
  | none => none
  | some r =>
    match arith_and_templates 1 r with
    | some v => some v
    | none =>
      match arith_and_templates 2 r with
      | some v => some v
      | none =>
        match arith_and_templates 3 r with
        | some v => some v
        | none => template_oblivious r

/-- Variant of `operator_overload` following the spec's words instead of
the source: arithmetic candidates tried at length 3, then 2, then 1
(longest first), everything else unchanged.  Used to compare the spec's
claimed try order with the source's. -/
def operator_overload_spec321 (s : List Char) :
    PRes (Operator × Option TemplateParameters) :=
  match keyword (String.data "operator") s with
  | none => none
  | some r =>
    match arith_and_templates 3 r with
    | some v => some v
    | none =>
      match arith_and_templates 2 r with
      | some v => some v
      | none =>
        match arith_and_templates 1 r with
        | some v => some v
        | none => template_oblivious r

/-- A literal value (`LiteralValue` in `cpparser/src/values/literals.rs`):
signed 64-bit, unsigned 64-bit, or character.  Machine integers are carried
as `Int`/`Nat` with explicit range checks in the parsers. -/
inductive LiteralValue where
  | I64 (v : Int)
  | U64 (v : Nat)
  | CharLit (c : Char)
deriving DecidableEq

/-- Suffix characters accepted after an integer literal: `U`, `L`, `Z`,
case-insensitive. -/
def isIntSuffixChar (c : Char) : Bool :=
  c = 'U' || c = 'u' || c = 'L' || c = 'l' || c = 'Z' || c = 'z'

/-- Mirrors nom's `sign` helper: consume a leading `+` or `-`, reporting
whether the value is negated. -/
def splitSign (s : List Char) : Bool × List Char :=
  match s with
  | c :: r => if c = '+' then (false, r) else if c = '-' then (true, r) else (false, c :: r)
  | [] => (false, [])

/-- Mirrors nom's `character::complete::i64`: optional sign, a digit run,
failing when the value overflows the signed 64-bit range. -/
def nomI64 (s : List Char) : Option (Int × List Char) :=
  let sgn := splitSign s
  let pd := sgn.2.span Char.isDigit
  if pd.1 = [] then none
  else
    let v : Int := (if sgn.1 then -1 else 1) * (natOfDigits pd.1 : Int)
    if -(2 ^ 63) ≤ v ∧ v < 2 ^ 63 then some (v, pd.2) else none

/-- Mirrors nom's `character::complete::u64`: a digit run with no sign,
failing when the value overflows the unsigned 64-bit range. -/
def nomU64 (s : List Char) : Option (Nat × List Char) :=
  let pd := s.span Char.isDigit
  if pd.1 = [] then none
  else
    let v := natOfDigits pd.1
    if v < 2 ^ 64 then some (v, pd.2) else none

/-- Parser recognizing C-style integer literals and negative numbers
(`integer` in `cpparser/src/values/literals.rs`): signed 64-bit preferred,
unsigned 64-bit as fallback, then any run of `U`/`L`/`Z` suffix characters
(case-insensitive) is consumed. -/
def integer (s : List Char) : PRes LiteralValue :=
  let core : PRes LiteralValue :=
    match nomI64 s with
    | some (v, r) => some (.I64 v, r)
    | none =>
      match nomU64 s with
      | some (v, r) => some (.U64 v, r)
      | none => none
  match core with
  | none => none
  | some (lv, r) => some (lv, r.dropWhile isIntSuffixChar)

/-- Lambda location description (`Lambda` in `src/cpp/anonymous.rs`). -/
structure Lambda where
  file : List Char
  line : Nat
  col : Nat
deriving DecidableEq

/-- Mirrors nom's `character::complete::u32`: a digit run with no sign,
failing when the value overflows the unsigned 32-bit range. -/
def nomU32 (s : List Char) : Option (Nat × List Char) :=
  let pd := s.span Char.isDigit
  if pd.1 = [] then none
  else
    let v := natOfDigits pd.1
    if v < 2 ^ 32 then some (v, pd.2) else none

/-- Mirrors nom's `take_until1(":")`: consume at least one character up to
but not including the first `:`, failing when there is no `:` or when it
comes first. -/
def takeUntil1Colon (s : List Char) : PRes (List Char) :=
  let p := s.span (fun c => ¬(c = ':'))
  if p.1 = [] then none
  else if p.2 = [] then none
  else some (p.1, p.2)

/-- Mirrors nom's `separated_pair(u32, char(':'), u32)` (the `location`
sub-parser of `lambda` in `src/cpp/anonymous.rs`). -/
def lambdaLocation (s : List Char) : PRes (Nat × Nat) :=
  match nomU32 s with
  | none => none
  | some (ln, r4) =>
    match r4 with
    | ':' :: r5 =>
      match nomU32 r5 with
      | none => none
      | some (cl, r6) => some ((ln, cl), r6)
    | _ => none

/-- The part of the `lambda` parser after the optional disk designator
`dd1`: the colon-free path segment, `:`, the location, and the closing
parenthesis. -/
def lambdaFileTail (dd1 : List Char) (s : List Char) : PRes Lambda :=
  match takeUntil1Colon s with
  | none => none
  | some (seg, r2) =>
    match r2 with
    | ':' :: r3 =>
      match lambdaLocation r3 with
      | none => none
      | some ((ln, cl), r6) =>
        match r6 with
        | ')' :: r7 => some (⟨dd1 ++ seg, ln, cl⟩, r7)
        | _ => none
    | _ => none

/-- Parser for clang lambda descriptions (`lambda` in
`src/cpp/anonymous.rs`): `(lambda at <path>:<line>:<col>)` where the path
is an optional one-character disk designator plus `:` followed by a
colon-free segment. -/
def lambda (s : List Char) : PRes Lambda :=
  match tagP (String.data "(lambda at ") s with
  | none => none
  | some r =>
    match r with
    | c :: ':' :: rr => lambdaFileTail [c, ':'] rr
    | _ => lambdaFileTail [] r

/-- Test for a UTF-8 continuation byte (`0x80..0xBF`). -/
def isCont (b : Nat) : Bool := 0x80 ≤ b && b < 0xC0

/-- Lower bound of the first continuation byte after lead byte `b`
(tightened for `0xE0` and `0xF0` to exclude overlong encodings). -/
def cont1lo (b : Nat) : Nat :=
  if b = 0xE0 then 0xA0 else if b = 0xF0 then 0x90 else 0x80

/-- Upper bound (exclusive) of the first continuation byte after lead byte
`b` (tightened for `0xED` to exclude surrogates and for `0xF4` to cap at
U+10FFFF). -/
def cont1hi (b : Nat) : Nat :=
  if b = 0xED then 0xA0 else if b = 0xF4 then 0x90 else 0xC0

/-- One step of UTF-8 decoding: the leading code point and the remaining
bytes, or `none` on invalid input.  Mirrors the validation performed by
Rust's `std::str::from_utf8` (rejecting overlong forms, surrogates and
out-of-range points). -/
def utf8DecodeOne (l : List Nat) : Option (Nat × List Nat) :=
  match l with
  | [] => none
  | b :: rest =>
    if b < 0x80 then some (b, rest)
    else if b < 0xC2 then none
    else if b < 0xE0 then
      match rest with
      | c1 :: r =>
        if isCont c1 then some ((b - 0xC0) * 0x40 + (c1 - 0x80), r) else none
      | [] => none
    else if b < 0xF0 then
      match rest with
      | c1 :: c2 :: r =>
        if (cont1lo b ≤ c1 && c1 < cont1hi b) && isCont c2 then
          some ((b - 0xE0) * 0x1000 + (c1 - 0x80) * 0x40 + (c2 - 0x80), r)
        else none
      | _ => none
    else if b < 0xF5 then
      match rest with
      | c1 :: c2 :: c3 :: r =>
        if (cont1lo b ≤ c1 && c1 < cont1hi b) && isCont c2 && isCont c3 then
          some ((b - 0xF0) * 0x40000 + (c1 - 0x80) * 0x1000 +
            (c2 - 0x80) * 0x40 + (c3 - 0x80), r)
        else none
      | _ => none
    else none

/-- Fuel-bounded UTF-8 decoding of a whole byte list into code points. -/
def utf8DecodeF : Nat → List Nat → Option (List Nat)
  | _, [] => some []
  | 0, _ :: _ => none
  | f + 1, l =>
    match utf8DecodeOne l with
    | none => none
    | some (cp, r) => (utf8DecodeF f r).map (cp :: ·)

/-- UTF-8 decoding of a byte list into code points; `none` exactly when the
bytes are not valid UTF-8 (each decode step consumes at least one byte, so
the input length is sufficient fuel). -/
def utf8Decode (l : List Nat) : Option (List Nat) := utf8DecodeF l.length l

/-- Code-point ranges of display width 0: C0/DEL controls (whose width the
source's `str::width` counts as 0) and combining diacritical marks. -/
def zeroRanges : List (Nat × Nat) :=
  [(0x0, 0x1F), (0x7F, 0x7F), (0x300, 0x36F)]

/-- Code-point ranges of display width 2: the principal East Asian
Wide/Fullwidth blocks. -/
def wideRanges : List (Nat × Nat) :=
  [(0x1100, 0x115F), (0x2E80, 0x303E), (0x3041, 0x33FF), (0x3400, 0x4DBF),
   (0x4E00, 0x9FFF), (0xAC00, 0xD7A3), (0xF900, 0xFAFF), (0xFF00, 0xFF60),
   (0xFFE0, 0xFFE6), (0x20000, 0x3FFFD)]

/-- Membership of a code point in a list of inclusive ranges. -/
def inRanges (rs : List (Nat × Nat)) (c : Nat) : Bool :=
  rs.any (fun p => p.1 ≤ c && c ≤ p.2)

/-- Modelled from the spec: the Unicode display-width table of the
`unicode-width` crate used by the source (East Asian Wide/Fullwidth
columns count 2, zero-width combining marks and controls count 0, all
else 1), restricted to the principal ranges. -/
def charWidth (c : Nat) : Nat :=
  if inRanges zeroRanges c then 0
  else if inRanges wideRanges c then 2
  else 1

/-- Total display width of a list of code points. -/
def listWidth (cps : List Nat) : Nat := (cps.map charWidth).sum

/-- Display width of a byte string, 0 when it is not valid UTF-8 (the
source only applies `width` to valid strings). -/
def bytesWidth (l : List Nat) : Nat :=
  match utf8Decode l with
  | some cps => listWidth cps
  | none => 0

/-- UTF-8 bytes of the `…` character pushed by `truncate_string`. -/
def ellipsisBytes : List Nat := [0xE2, 0x80, 0xA6]

/-- Header scan of `truncate_string` (`src/main.rs`): growing byte prefixes
are tried; a valid-UTF-8 prefix wider than `headerCols` stops the scan and
the last valid prefix not exceeding the budget is returned.  The byte
counter is a `u16` in the source, so the fuel is `65536 - headerBytes` and
running out of fuel models the increment overflowing (a panic in debug
builds, an infinite loop in release builds), returned as `none`.
Indexing past the end of the byte slice is likewise `none`. -/
def headerLoop (bytes : List Nat) (headerCols : Nat) :
    Nat → List Nat → Nat → Option (List Nat)
  | 0, _, _ => none
  | f + 1, lastGood, headerBytes =>
    if bytes.length < headerBytes then none
    else
      match utf8Decode (bytes.take headerBytes) with
      | some cps =>
        if headerCols < listWidth cps then some lastGood
        else headerLoop bytes headerCols f (bytes.take headerBytes) (headerBytes + 1)
      | none => headerLoop bytes headerCols f lastGood (headerBytes + 1)

/-- Trailer scan of `truncate_string` (`src/main.rs`): shrinking start
indices are tried; a valid-UTF-8 suffix wider than `trailerCols` stops the
scan and the last valid suffix not exceeding the budget — initially the
value carried over from the header scan — is returned.  Decrementing the
start index below zero (a usize underflow panic) is `none`. -/
def trailerLoop (bytes : List Nat) (trailerCols : Nat) :
    List Nat → Nat → Option (List Nat)
  | lastGood, trailerStart =>
    match utf8Decode (bytes.drop trailerStart) with
    | some cps =>
      if trailerCols < listWidth cps then some lastGood
      else
        match trailerStart with
        | 0 => none
        | t + 1 => trailerLoop bytes trailerCols (bytes.drop (t + 1)) t
    | none =>
      match trailerStart with
      | 0 => none
      | t + 1 => trailerLoop bytes trailerCols lastGood t

/-- Byte-level embedding of `truncate_string` (`src/main.rs`): split the
column budget into header and trailer, scan for the widest header prefix
and trailer suffix fitting their budgets, and join them around `…`.
Returns `none` on any panic of the source: the `max_cols - 1` u16
underflow when `max_cols = 0`, the trailer-start usize underflow, an
out-of-bounds slice, or the header scan's u16 byte counter overflowing. -/
def truncate_string (bytes : List Nat) (max_cols : Nat) : Option (List Nat) :=
  if max_cols = 0 then none
  else
    match headerLoop bytes (max_cols - 1 - (max_cols - 1) / 2)
        (65536 - (max_cols - 1 - (max_cols - 1) / 2)) []
        (max_cols - 1 - (max_cols - 1) / 2) with
    | none => none
    | some lg1 =>
      if bytes.length < (max_cols - 1) / 2 then none
      else
        match trailerLoop bytes ((max_cols - 1) / 2) lg1
            (bytes.length - (max_cols - 1) / 2) with
        | none => none
        | some lg2 => some (lg1 ++ ellipsisBytes ++ lg2)

/-- Activity argument kinds (`ActivityArgument` of the external
`clang_time_trace` crate, as matched by `display_activity_desc`); payloads
are opaque indices resolved by the renderers. -/
inductive ActivityArgument where
  | Nothing
  | UnnamedLoop
  | Str (s : Nat)
  | MangledDemangled (s : Nat)
  | MangledMangled (s : Nat)
  | FilePath (p : Nat)
  | CppEntity (e : Nat)
  | MangledParsed (e : Nat)
deriving DecidableEq

/-- Error emitted when an activity cannot be displayed (`ActivityDescError`
in `src/ui/display/activity.rs`).  The `IoError` variant is unreachable in
this embedding because the output sink is an infallible accumulator. -/
inductive ActivityDescError where
  | NotEnoughCols (max_cols : Nat)
  | IoError
deriving DecidableEq

/-- Code point of the opening parenthesis. -/
def lparCp : Nat := 0x28

/-- Code point of the closing parenthesis. -/
def rparCp : Nat := 0x29

/-- Embedding of `display_activity_desc` (`src/ui/display/activity.rs`)
over an infallible output accumulator of code points.  The argument
renderers (`display_string`, `truncate_path`, `bounded_display`, which
live outside the embedded sources) are abstracted as the `render`
parameter, which receives the argument and the remaining column budget
`max_cols - (width(name) + 2)`.  Returns the error before anything is
written, or the complete written output. -/
def display_activity_desc (render : ActivityArgument → Nat → List Nat)
    (name : List Nat) (arg : ActivityArgument) (max_cols : Nat) :
    Except ActivityDescError (List Nat) :=
  let has_argument : Bool := arg ≠ ActivityArgument.Nothing
  if max_cols < listWidth name + 3 * (if has_argument then 1 else 0) then
    .error (.NotEnoughCols max_cols)
  else if has_argument then
    let mc := max_cols - (listWidth name + 2)
    .ok (name ++ [lparCp] ++ render arg mc ++ [rparCp])
  else
    .ok name

/-- UTF-8 byte string of `ab語` (`a`, `b`, then the wide CJK character
U+8A9E), the input exhibiting the trailer re-emission of
`truncate_string`. -/
def c3Input : List Nat := [0x61, 0x62, 0xE8, 0xAA, 0x9E]

/-- Byte string of `n` copies of the UTF-8 encoding `0xCC 0x81` of the
zero-width combining acute accent U+0301. -/
def marks : Nat → List Nat
  | 0 => []
  | n + 1 => 0xCC :: 0x81 :: marks n

/-- Adversarial input for the header scan of `truncate_string`: an `a`,
then 16384 combining accents (32768 bytes of zero width), then 70000 `b`s;
102769 bytes of display width 70001.  With `max_cols = 65535` every prefix
the header scan can reach within its u16 byte counter has width at most
the header budget 32767, so the counter overflows. -/
def c10Input : List Nat := 0x61 :: (marks 16384 ++ List.replicate 70000 0x62)

/-- Code points of `c10Input`. -/
def c10Cps : List Nat :=
  0x61 :: (List.replicate 16384 0x301 ++ List.replicate 70000 0x62)

/-- C1: parsing `operator<<void>` with `operator_overload` succeeds,
consumes the whole input and yields `Basic{symbol='<', twice=false,
equal=false}` with the template-argument list `[void]`, while parsing
`operator<<` succeeds, consumes the whole input and yields
`Basic{symbol='<', twice=true, equal=false}` with no template-argument
list. -/
theorem c1_operator_overload_disambiguation :
    operator_overload (String.data "operator<<void>") =
      some ((.Basic .Less false false,
        some (some [.TypeLike ⟨⟨cvNone, .LegacyName [String.data "void"]⟩, []⟩])),
        []) ∧
    operator_overload (String.data "operator<<") =
      some ((.Basic .Less true false, none), []) := by
  constructor <;> rfl

/-- C4: parsing the exact string `<, void>` with `template_parameters`
succeeds, consumes the whole input and returns the Ambiguous sentinel
(`none`) rather than a resolved list, while the well-formed list `<>`
returns a resolved empty parameter list. -/
theorem c4_template_parameters_ambiguous_sentinel :
    template_parameters (String.data "<, void>") = some (none, []) ∧
    template_parameters (String.data "<>") = some (some [], []) := by
  constructor <;> rfl

/-- C5: parsing `==` with `arithmetic_or_comparison` at length 2 always
yields `Basic{symbol='=', twice=false, equal=true}` and never the
twice-`=` decoding, consistently with how `<=`, `>=` and `!=` are parsed
as symbol-plus-equal. -/
theorem c5_equal_equal_is_symbol_plus_equal :
    ∀ rest : List Char,
      arithmetic_or_comparison 2 ('=' :: '=' :: rest) =
        some (.Basic .AssignEq false true, rest) ∧
      arithmetic_or_comparison 2 ('=' :: '=' :: rest) ≠
        some (.Basic .AssignEq true false, rest) ∧
      arithmetic_or_comparison 2 ('<' :: '=' :: rest) =
        some (.Basic .Less false true, rest) ∧
      arithmetic_or_comparison 2 ('>' :: '=' :: rest) =
        some (.Basic .Greater false true, rest) ∧
      arithmetic_or_comparison 2 ('!' :: '=' :: rest) =
        some (.Basic .Not false true, rest) := by
  intro rest
  refine ⟨rfl, ?_, rfl, rfl, rfl⟩
  intro h
  have h1 : arithmetic_or_comparison 2 ('=' :: '=' :: rest) =
      some (.Basic .AssignEq false true, rest) := rfl
  rw [h1] at h
  simp at h

/-- C2 counterexample: the source's `operator_overload` tries arithmetic
candidate lengths 1, 2, 3 in this order; a variant following the spec's
words (3, then 2, then 1) parses `operator<<void>` differently — it
accepts length 2 and leaves `void>` unconsumed, whereas the source accepts
length 1 with the template-argument list `[void]` and consumes
everything. -/
theorem c2_spec_order_counterexample :
    operator_overload (String.data "operator<<void>") =
      some ((.Basic .Less false false,
        some (some [.TypeLike ⟨⟨cvNone, .LegacyName [String.data "void"]⟩, []⟩])),
        []) ∧
    operator_overload_spec321 (String.data "operator<<void>") =
      some ((.Basic .Less true false, none), String.data "void>") ∧
    operator_overload (String.data "operator<<void>") ≠
      operator_overload_spec321 (String.data "operator<<void>") := by
  refine ⟨rfl, rfl, ?_⟩
  intro h
  rw [show operator_overload (String.data "operator<<void>") =
      some ((.Basic .Less false false,
        some (some [.TypeLike ⟨⟨cvNone, .LegacyName [String.data "void"]⟩, []⟩])),
        []) from rfl,
    show operator_overload_spec321 (String.data "operator<<void>") =
      some ((.Basic .Less true false, none), String.data "void>") from rfl] at h
  simp at h

/-- A successful length-1 arithmetic parse consumes exactly one symbol. -/
theorem aoc1_shape (s : List Char) (op : Operator) (r : List Char)
    (h : arithmetic_or_comparison 1 s = some (op, r)) :
    ∃ sym, symbol s = some (sym, r) := by
  simp only [arithmetic_or_comparison] at h
  split at h
  next sym rr heq =>
    simp only [Option.some.injEq, Prod.mk.injEq] at h
    exact ⟨sym, by rw [heq, h.2]⟩
  next => exact absurd h (by simp)

/-- A successful length-2 arithmetic parse consumes exactly two symbols. -/
theorem aoc2_shape (s : List Char) (op : Operator) (r : List Char)
    (h : arithmetic_or_comparison 2 s = some (op, r)) :
    ∃ s1 r1 s2, symbol s = some (s1, r1) ∧ symbol r1 = some (s2, r) := by
  simp only [arithmetic_or_comparison] at h
  split at h
  next => exact absurd h (by simp)
  next s1 r1 heq =>
    split at h
    next => exact absurd h (by simp)
    next s2 r2 heq2 =>
      refine ⟨s1, r1, s2, heq, ?_⟩
      split_ifs at h <;> simp only [Option.some.injEq, Prod.mk.injEq] at h <;>
        rw [heq2, h.2]

/-- A successful length-3 arithmetic parse consumes exactly three
symbols. -/
theorem aoc3_shape (s : List Char) (op : Operator) (r : List Char)
    (h : arithmetic_or_comparison 3 s = some (op, r)) :
    ∃ s1 r1 s2 r2 s3, symbol s = some (s1, r1) ∧ symbol r1 = some (s2, r2) ∧
      symbol r2 = some (s3, r) := by
  simp only [arithmetic_or_comparison] at h
  split at h
  next => exact absurd h (by simp)
  next s1 r1 heq =>
    split at h
    next => exact absurd h (by simp)
    next s2 r2 heq2 =>
      split at h
      next => exact absurd h (by simp)
      next s3 r3 heq3 =>
        refine ⟨s1, r1, s2, r2, s3, heq, heq2, ?_⟩
        split_ifs at h <;> simp only [Option.some.injEq, Prod.mk.injEq] at h <;>
          rw [heq3, h.2]

/-- C2 amended: in `operator_overload` the arithmetic candidates are tried
at length 1, then 2, then 3, shortest first.  For an input matching
`arithmetic_or_comparison` at both lengths L and L+1: (i) an operator
symbol is queued right after the first L symbols; (ii) the length-L
candidate is accepted exactly when no operator symbol follows its optional
template-parameter list — when a list parses, acceptance depends only on
what follows the list, and when none parses the queued symbol rejects the
candidate, which (iii) makes rejection automatic in the no-list case;
(iv)–(vi) the accepted parse of `operator_overload` is the first accepted
candidate in the 1, 2, 3 order (falling back to the template-oblivious
alternatives), so a rejected length never produces the accepted parse, and
once every shorter candidate is rejected the result comes from the
remaining larger lengths — possibly a still-longer length, or no arithmetic
parse at all. -/
theorem c2_amended_rejected_length_never_wins (L : Nat)
    (t s r1 r2 : List Char) (op1 op2 : Operator)
    (hL : L = 1 ∨ L = 2)
    (hkw : keyword (String.data "operator") t = some s)
    (h1 : arithmetic_or_comparison L s = some (op1, r1))
    (h2 : arithmetic_or_comparison (L + 1) s = some (op2, r2)) :
    (∃ p, symbol r1 = some p) ∧
    arith_and_templates L s =
      (match template_parameters r1 with
       | some (tps, r) =>
         match symbol r with
         | some _ => none
         | none => some ((op1, some tps), r)
       | none => none) ∧
    (template_parameters r1 = none → arith_and_templates L s = none) ∧
    (∀ v, arith_and_templates 1 s = some v → operator_overload t = some v) ∧
    (arith_and_templates 1 s = none →
      ∀ v, arith_and_templates 2 s = some v → operator_overload t = some v) ∧
    (arith_and_templates 1 s = none → arith_and_templates 2 s = none →
      operator_overload t =
        (match arith_and_templates 3 s with
         | some v => some v
         | none => template_oblivious s)) := by
  have key : ∃ p, symbol r1 = some p := by
    rcases hL with rfl | rfl
    · obtain ⟨sym, hsym⟩ := aoc1_shape s op1 r1 h1
      obtain ⟨a1, b1, a2, hs1, hs2⟩ := aoc2_shape s op2 r2 h2
      rw [hsym] at hs1
      simp only [Option.some.injEq, Prod.mk.injEq] at hs1
      rw [← hs1.2] at hs2
      exact ⟨_, hs2⟩
    · obtain ⟨a1, b1, a2, hs1, hs2⟩ := aoc2_shape s op1 r1 h1
      obtain ⟨c1, d1, c2, d2, c3, ht1, ht2, ht3⟩ := aoc3_shape s op2 r2 h2
      rw [hs1] at ht1
      simp only [Option.some.injEq, Prod.mk.injEq] at ht1
      rw [← ht1.2] at ht2
      rw [hs2] at ht2
      simp only [Option.some.injEq, Prod.mk.injEq] at ht2
      rw [← ht2.2] at ht3
      exact ⟨_, ht3⟩
  obtain ⟨p, hp⟩ := key
  refine ⟨⟨p, hp⟩, ?_, ?_, ?_, ?_, ?_⟩
  · cases htp : template_parameters r1 with
    | none => simp only [arith_and_templates, h1, htp, hp]
    | some pr =>
      obtain ⟨tps, r⟩ := pr
      simp only [arith_and_templates, h1, htp]
  · intro ht
    simp only [arith_and_templates, h1, ht, hp]
  · intro v hv1
    simp only [operator_overload, hkw, hv1]
  · intro h1n v hv2
    simp only [operator_overload, hkw, h1n, hv2]
  · intro h1n h2n
    simp only [operator_overload, hkw, h1n, h2n]

/-- Witness for the amended C2: on `operator<<` the post-keyword input `<<`
matches arithmetic lengths 1 and 2, no template list follows the first `<`
so the length-1 candidate is rejected, and the accepted parse is the
length-2 candidate `<<`. -/
theorem c2_amended_rejected_length_never_wins_witness :
    arith_and_templates 1 (String.data "<<") = none ∧
    operator_overload (String.data "operator<<") =
      some ((.Basic .Less true false, none), []) := by
  have h := c2_amended_rejected_length_never_wins 1
    (String.data "operator<<") (String.data "<<") (String.data "<") []
    (.Basic .Less false false) (.Basic .Less true false)
    (Or.inl rfl) rfl rfl rfl
  obtain ⟨hi, hii, hiii, hiv, hv, hvi⟩ := h
  have hrej : arith_and_templates 1 (String.data "<<") = none := hiii rfl
  exact ⟨hrej, hv hrej ((.Basic .Less true false, none), []) rfl⟩

/-- takeWhile over an append whose left part satisfies the predicate and
whose right part starts by failing it. -/
theorem takeWhile_append_all (p : Char → Bool) (a b : List Char)
    (ha : ∀ c ∈ a, p c = true)
    (hb : ∀ c, b.head? = some c → p c = false) :
    (a ++ b).takeWhile p = a := by
  induction a with
  | nil =>
    simp only [List.nil_append]
    cases b with
    | nil => simp
    | cons c b2 => simp [List.takeWhile, hb c rfl]
  | cons c a2 ih =>
    have hc : p c = true := ha c (by simp)
    simp only [List.cons_append, List.takeWhile, hc]
    simp [ih (fun d hd => ha d (by simp [hd]))]

/-- dropWhile over an append whose left part satisfies the predicate and
whose right part starts by failing it. -/
theorem dropWhile_append_all (p : Char → Bool) (a b : List Char)
    (ha : ∀ c ∈ a, p c = true)
    (hb : ∀ c, b.head? = some c → p c = false) :
    (a ++ b).dropWhile p = b := by
  induction a with
  | nil =>
    simp only [List.nil_append]
    cases b with
    | nil => simp
    | cons c b2 => simp [List.dropWhile, hb c rfl]
  | cons c a2 ih =>
    have hc : p c = true := ha c (by simp)
    simp only [List.cons_append, List.dropWhile, hc]
    exact ih (fun d hd => ha d (by simp [hd]))

/-- span over an append whose left part satisfies the predicate and whose
right part starts by failing it. -/
theorem span_append_all (p : Char → Bool) (a b : List Char)
    (ha : ∀ c ∈ a, p c = true)
    (hb : ∀ c, b.head? = some c → p c = false) :
    (a ++ b).span p = (a, b) := by
  rw [List.span_eq_take_drop, takeWhile_append_all p a b ha hb,
    dropWhile_append_all p a b ha hb]

/-- Integer suffix characters are not digits. -/
theorem suffix_not_digit (c : Char) (h : isIntSuffixChar c = true) :
    c.isDigit = false := by
  simp only [isIntSuffixChar, Bool.or_eq_true, decide_eq_true_eq] at h
  rcases h with ((((rfl | rfl) | rfl) | rfl) | rfl) | rfl <;> decide

/-- Digits are neither sign characters nor suffix characters. -/
theorem digit_not_special (c : Char) (h : c.isDigit = true) :
    c ≠ '+' ∧ c ≠ '-' ∧ isIntSuffixChar c = false := by
  refine ⟨?_, ?_, ?_⟩
  · intro he; rw [he] at h; exact absurd h (by decide)
  · intro he; rw [he] at h; exact absurd h (by decide)
  · rcases hc : isIntSuffixChar c with _ | _
    · rfl
    · rw [suffix_not_digit c hc] at h; exact absurd h (by simp)

/-- splitSign on a leading minus consumes it and reports negation. -/
theorem splitSign_minus (l : List Char) : splitSign ('-' :: l) = (true, l) := by
  simp [splitSign]

/-- splitSign on a leading digit consumes nothing. -/
theorem splitSign_digit (d : Char) (l : List Char) (hd : d.isDigit = true) :
    splitSign (d :: l) = (false, d :: l) := by
  have h := digit_not_special d hd
  simp [splitSign, h.1, h.2.1]

/-- Evaluation of `nomI64` when the sign and digit-run decomposition of
the input is known. -/
theorem nomI64_eval (sg : Bool) (s ds tail : List Char)
    (hsgn : splitSign s = (sg, ds ++ tail))
    (htake : (ds ++ tail).takeWhile Char.isDigit = ds)
    (hdropD : (ds ++ tail).dropWhile Char.isDigit = tail)
    (hne : ds ≠ []) :
    nomI64 s =
      if -(2 ^ 63) ≤ (if sg then -1 else 1) * (natOfDigits ds : Int) ∧
          (if sg then -1 else 1) * (natOfDigits ds : Int) < 2 ^ 63 then
        some ((if sg then -1 else 1) * (natOfDigits ds : Int), tail)
      else none := by
  simp only [nomI64, hsgn, List.span_eq_take_drop, htake, hdropD, if_neg hne]

/-- Evaluation of `nomU64` when the digit-run decomposition of the input
is known. -/
theorem nomU64_eval (ds tail : List Char)
    (htake : (ds ++ tail).takeWhile Char.isDigit = ds)
    (hdropD : (ds ++ tail).dropWhile Char.isDigit = tail)
    (hne : ds ≠ []) :
    nomU64 (ds ++ tail) =
      if natOfDigits ds < 2 ^ 64 then some (natOfDigits ds, tail) else none := by
  simp only [nomU64, List.span_eq_take_drop, htake, hdropD, if_neg hne]

/-- C6: for a decimal integer numeral, optionally negative, whose value
fits in a signed 64-bit integer, `integer` returns the `I64` variant of
the value; otherwise, when the value fits in an unsigned 64-bit integer,
it returns the `U64` variant; in either case the trailing run of suffix
characters from `{U, L, Z}` (case-insensitive, any order and multiplicity)
is consumed as part of the literal. -/
theorem c6_integer_i64_preferred_u64_fallback (neg : Bool)
    (ds suffix rest : List Char)
    (hds : ds ≠ []) (hdall : ∀ c ∈ ds, c.isDigit = true)
    (hsuf : ∀ c ∈ suffix, isIntSuffixChar c = true)
    (hrest : ∀ c, rest.head? = some c →
      c.isDigit = false ∧ isIntSuffixChar c = false) :
    ((-(2 ^ 63) : Int) ≤ (if neg then -1 else 1) * (natOfDigits ds : Int) ∧
        (if neg then -1 else 1) * (natOfDigits ds : Int) < 2 ^ 63 →
      integer ((if neg then ['-'] else []) ++ (ds ++ (suffix ++ rest))) =
        some (.I64 ((if neg then -1 else 1) * (natOfDigits ds : Int)), rest)) ∧
    ((2 ^ 63 : Int) ≤ (if neg then -1 else 1) * (natOfDigits ds : Int) →
        (if neg then -1 else 1) * (natOfDigits ds : Int) < 2 ^ 64 →
      integer ((if neg then ['-'] else []) ++ (ds ++ (suffix ++ rest))) =
        some (.U64 (natOfDigits ds), rest)) := by
  have htail : ∀ c, (suffix ++ rest).head? = some c → c.isDigit = false := by
    intro c hc
    cases suffix with
    | nil => exact (hrest c (by simpa using hc)).1
    | cons d suffix2 =>
      simp only [List.cons_append, List.head?_cons, Option.some.injEq] at hc
      exact hc ▸ suffix_not_digit d (hsuf d (by simp))
  have htake : (ds ++ (suffix ++ rest)).takeWhile Char.isDigit = ds :=
    takeWhile_append_all _ _ _ hdall htail
  have hdropD : (ds ++ (suffix ++ rest)).dropWhile Char.isDigit = suffix ++ rest :=
    dropWhile_append_all _ _ _ hdall htail
  have hdrop : (suffix ++ rest).dropWhile isIntSuffixChar = rest :=
    dropWhile_append_all _ _ _ hsuf (fun c hc => (hrest c hc).2)
  obtain ⟨d, ds2, rfl⟩ : ∃ d ds2, ds = d :: ds2 := by
    cases ds with
    | nil => exact absurd rfl hds
    | cons d ds2 => exact ⟨d, ds2, rfl⟩
  have hnonneg : (0 : Int) ≤ (natOfDigits (d :: ds2) : Int) := Int.natCast_nonneg _
  have hsgn : splitSign ((if neg then ['-'] else []) ++ ((d :: ds2) ++ (suffix ++ rest))) =
      (neg, (d :: ds2) ++ (suffix ++ rest)) := by
    cases neg with
    | true => simpa using splitSign_minus ((d :: ds2) ++ (suffix ++ rest))
    | false =>
      simpa using splitSign_digit d (ds2 ++ (suffix ++ rest)) (hdall d (by simp))
  have hI := nomI64_eval neg _ (d :: ds2) (suffix ++ rest) hsgn htake hdropD hds
  constructor
  · intro hrange
    rw [integer, hI, if_pos hrange]
    simp [hdrop]
  · intro hlo hhi
    have hnegf : neg = false := by
      cases neg with
      | true =>
        exfalso
        have hlo2 : (2 : Int) ^ 63 ≤ -(natOfDigits (d :: ds2) : Int) := by
          simpa using hlo
        omega
      | false => rfl
    subst hnegf
    replace hlo : (2 ^ 63 : Int) ≤ (natOfDigits (d :: ds2) : Int) := by
      simpa using hlo
    replace hhi : (natOfDigits (d :: ds2) : Int) < 2 ^ 64 := by simpa using hhi
    simp only [Bool.false_eq_true, if_false, one_mul, List.nil_append] at hI ⊢
    have hU := nomU64_eval (d :: ds2) (suffix ++ rest) htake hdropD hds
    rw [integer, hI, if_neg (by omega), hU, if_pos (by exact_mod_cast hhi)]
    simp [hdrop]

/-- Witness for C6: `42uLz` parses to I64 42 with the whole suffix run
consumed, and `18446744073709551615U` (too large for i64, fitting u64)
parses to the U64 variant. -/
theorem c6_integer_witness :
    integer (String.data "42uLz") = some (.I64 42, []) ∧
    integer (String.data "18446744073709551615U") =
      some (.U64 18446744073709551615, []) := by
  constructor
  · exact (c6_integer_i64_preferred_u64_fallback false (String.data "42")
      (String.data "uLz") [] (by decide) (by decide) (by decide)
      (by intro c hc; simp at hc)).1 (by constructor <;> decide)
  · exact (c6_integer_i64_preferred_u64_fallback false
      (String.data "18446744073709551615") (String.data "U") []
      (by decide) (by decide) (by decide)
      (by intro c hc; simp at hc)).2 (by decide) (by decide)

/-- The segment produced by `takeUntil1Colon` contains no colon. -/
theorem takeUntil1Colon_no_colon (s seg r2 : List Char)
    (h : takeUntil1Colon s = some (seg, r2)) : ∀ c ∈ seg, c ≠ ':' := by
  intro c hc
  simp only [takeUntil1Colon, List.span_eq_take_drop] at h
  split at h
  · exact absurd h (by simp)
  · split at h
    · exact absurd h (by simp)
    · simp only [Option.some.injEq, Prod.mk.injEq] at h
      rw [← h.1] at hc
      have := List.mem_takeWhile_imp hc
      simpa using this

/-- Every successful parse of the lambda path tail confines colons of the
file path to the (at most two-character) disk-designator prefix. -/
theorem lambdaFileTail_colons (dd1 s : List Char) (lam : Lambda)
    (r : List Char) (hlen : dd1.length ≤ 2)
    (h : lambdaFileTail dd1 s = some (lam, r)) :
    ∀ c ∈ lam.file.drop 2, c ≠ ':' := by
  intro c hc
  simp only [lambdaFileTail] at h
  split at h
  next => exact absurd h (by simp)
  next seg r2 hequ =>
    have hseg := takeUntil1Colon_no_colon _ _ _ hequ
    split at h
    next r3 =>
      split at h
      next => exact absurd h (by simp)
      next ln cl r6 heqloc =>
        split at h
        next r7 =>
          simp only [Option.some.injEq, Prod.mk.injEq] at h
          rw [← h.1] at hc
          simp only [List.drop_append_eq_append_drop,
            List.drop_eq_nil_of_le hlen, List.nil_append] at hc
          exact hseg c (List.mem_of_mem_drop hc)
        next => exact absurd h (by simp)
    next => exact absurd h (by simp)

/-- C7: `(lambda at /a/b.cpp:12:34)` parses to the lambda located at file
`/a/b.cpp`, line 12, column 34; `(lambda at C:/a/b.cpp:12:34)` parses with
the leading disk designator kept in the file path; and in every successful
lambda parse the file path contains no `:` beyond the two leading
characters forming a disk designator. -/
theorem c7_lambda_parse_and_colon_freedom :
    lambda (String.data "(lambda at /a/b.cpp:12:34)") =
      some (⟨String.data "/a/b.cpp", 12, 34⟩, []) ∧
    lambda (String.data "(lambda at C:/a/b.cpp:12:34)") =
      some (⟨String.data "C:/a/b.cpp", 12, 34⟩, []) ∧
    (∀ s lam r, lambda s = some (lam, r) → ∀ c ∈ lam.file.drop 2, c ≠ ':') := by
  refine ⟨rfl, rfl, ?_⟩
  intro s lam r h
  simp only [lambda] at h
  split at h
  next => exact absurd h (by simp)
  next r0 heq0 =>
    split at h
    next c0 rr => exact lambdaFileTail_colons _ _ _ _ (by simp) h
    next => exact lambdaFileTail_colons _ _ _ _ (by simp) h

/-- Witness for C7: the colon-freedom conclusion instantiated at the
concrete parse of `(lambda at /a/b.cpp:12:34)`; alongside, a parse whose
path keeps a leading disk designator. -/
theorem c7_lambda_parse_and_colon_freedom_witness :
    ('b' : Char) ≠ ':' ∧
    lambda (String.data "(lambda at a:12:34:56)") =
      some (⟨String.data "a:12", 34, 56⟩, []) := by
  refine ⟨?_, rfl⟩
  exact c7_lambda_parse_and_colon_freedom.2.2
    (String.data "(lambda at /a/b.cpp:12:34)")
    ⟨String.data "/a/b.cpp", 12, 34⟩ [] rfl 'b' (by decide)

/-- C9: `display_activity_desc` returns `NotEnoughCols(max_cols)` exactly
when `max_cols` is smaller than the display width of the activity name
plus 3 extra columns when an argument is present; in the error case
nothing is written, and otherwise it returns Ok having written the name
followed, when an argument is present, by the rendered argument in
parentheses. -/
theorem c9_display_activity_desc_not_enough_cols
    (render : ActivityArgument → Nat → List Nat) (name : List Nat)
    (arg : ActivityArgument) (max_cols : Nat) :
    (max_cols < listWidth name +
        3 * (if arg ≠ ActivityArgument.Nothing then 1 else 0) →
      display_activity_desc render name arg max_cols =
        .error (.NotEnoughCols max_cols)) ∧
    (listWidth name + 3 * (if arg ≠ ActivityArgument.Nothing then 1 else 0) ≤
        max_cols →
      display_activity_desc render name arg max_cols =
        .ok (name ++ (if arg ≠ ActivityArgument.Nothing then
          [lparCp] ++ render arg (max_cols - (listWidth name + 2)) ++ [rparCp]
          else []))) := by
  constructor
  · intro hlt
    rw [display_activity_desc, if_pos (by simpa using hlt)]
  · intro hge
    rw [display_activity_desc, if_neg (by simpa using not_lt.mpr hge)]
    by_cases harg : arg = ActivityArgument.Nothing
    · rw [if_neg (by simp [harg]), if_neg (by simp [harg])]
      simp
    · rw [if_pos (by simp [harg]), if_pos (by simp [harg])]
      simp

/-- Witness for C9: with a name of width 2 and an argument present, width
budget 4 errors with nothing written and budget 5 succeeds. -/
theorem c9_display_activity_desc_not_enough_cols_witness :
    display_activity_desc (fun _ _ => [0x78]) [0x41, 0x42]
      (ActivityArgument.Str 0) 4 = .error (.NotEnoughCols 4) ∧
    display_activity_desc (fun _ _ => [0x78]) [0x41, 0x42]
      (ActivityArgument.Str 0) 5 =
      .ok [0x41, 0x42, lparCp, 0x78, rparCp] := by
  constructor
  · exact (c9_display_activity_desc_not_enough_cols (fun _ _ => [0x78])
      [0x41, 0x42] (ActivityArgument.Str 0) 4).1 (by decide)
  · have h := (c9_display_activity_desc_not_enough_cols (fun _ _ => [0x78])
      [0x41, 0x42] (ActivityArgument.Str 0) 5).2 (by decide)
    simpa using h

/-- tagP succeeds exactly on inputs starting with the tag. -/
theorem tagP_some_iff (t : List Char) : ∀ s r, (tagP t s = some r ↔ s = t ++ r) := by
  induction t with
  | nil =>
    intro s r
    simp [tagP]
  | cons c t2 ih =>
    intro s r
    cases s with
    | nil => simp [tagP]
    | cons d s2 =>
      by_cases hcd : c = d
      · subst hcd
        simp [tagP, ih s2 r]
      · simp [tagP, hcd]
        intro he
        exact absurd he.symm hcd

/-- Well-formedness of the reserved keyword table: nonempty, made of
identifier continuation characters, starting with an identifier start
character. -/
theorem reserved_wf : ∀ kw ∈ reservedKeywords,
    kw ≠ [] ∧ (∀ c ∈ kw, isIdentCont c = true) ∧
      isIdentStart (kw.headD 'a') = true := by decide

/-- On any input where `identifier` succeeds, every reserved keyword fails
to match: either its characters disagree with the input or it is followed
by an identifier continuation character, in which case the identifier run
would extend past it. -/
theorem keyword_none_of_identifier (kw s : List Char) (t r : List Char)
    (hid : identifier s = some (t, r)) (hkw : kw ∈ reservedKeywords) :
    keyword kw s = none := by
  rcases hk : keyword kw s with _ | r2
  · rfl
  exfalso
  simp only [keyword] at hk
  split at hk
  next => exact absurd hk (by simp)
  next r3 heqt =>
    have hs : s = kw ++ r3 := (tagP_some_iff kw s r3).mp heqt
    have hbound : ∀ d, r3.head? = some d → isIdentCont d = false := by
      intro d hd
      split at hk
      next c heq =>
        rw [heq, Option.some.injEq] at hd
        subst hd
        rcases hcc : isIdentCont c with _ | _
        · rfl
        · rw [hcc] at hk
          simp at hk
      next heq =>
        rw [heq] at hd
        simp at hd
    obtain ⟨hne, hcont, hstart⟩ := reserved_wf kw hkw
    obtain ⟨c0, kt, rfl⟩ : ∃ c0 kt, kw = c0 :: kt := by
      cases kw with
      | nil => exact absurd rfl hne
      | cons c0 kt => exact ⟨c0, kt, rfl⟩
    have hident : identStr s = some (c0 :: kt, r3) := by
      rw [hs]
      simp only [List.cons_append, identStr, List.span_eq_take_drop]
      rw [if_pos (by simpa using hstart)]
      rw [takeWhile_append_all _ kt r3 (fun c hc => hcont c (by simp [hc]))
          hbound,
        dropWhile_append_all _ kt r3 (fun c hc => hcont c (by simp [hc]))
          hbound]
    have hidnone : identifier s = none := by
      rw [identifier, hident]
      show (if c0 :: kt ∈ reservedKeywords then (none : PRes (List Char))
        else some (c0 :: kt, r3)) = none
      rw [if_pos hkw]
    rw [hidnone] at hid
    exact absurd hid (by simp)

/-- A successful identifier parse starts with an identifier start
character. -/
theorem identifier_head (s : List Char) (t r : List Char)
    (hid : identifier s = some (t, r)) :
    ∃ c rest, s = c :: rest ∧ isIdentStart c = true := by
  simp only [identifier] at hid
  split at hid
  next => exact absurd hid (by simp)
  next t2 r2 heq =>
    cases s with
    | nil => simp [identStr] at heq
    | cons c rest =>
      refine ⟨c, rest, rfl, ?_⟩
      simp only [identStr] at heq
      rcases hstart : isIdentStart c with _ | _
      · rw [hstart] at heq
        simp at heq
      · rfl

/-- Identifier start characters are not spaces. -/
theorem identStart_not_space (c : Char) (h : isIdentStart c = true) :
    isSpaceChar c = false := by
  rcases hs : isSpaceChar c with _ | _
  · rfl
  · exfalso
    simp only [isSpaceChar, Bool.or_eq_true, decide_eq_true_eq] at hs
    rcases hs with rfl | rfl <;> simp [isIdentStart] at h

/-- parseCv consumes nothing when neither cv keyword matches. -/
theorem parseCv_none (s : List Char)
    (h1 : keyword (String.data "const") s = none)
    (h2 : keyword (String.data "volatile") s = none) :
    parseCv s = (cvNone, s) := by
  rw [parseCv]
  cases s.length with
  | zero => rfl
  | succ n => simp only [parseCvF, h1, h2]

/-- keywords fails when every keyword of the set fails. -/
theorem keywords_none (kws : List (List Char)) (s : List Char)
    (h : ∀ kw ∈ kws, keyword kw s = none) : keywords kws s = none := by
  induction kws with
  | nil => rfl
  | cons kw kws2 ih =>
    simp only [keywords, h kw (by simp)]
    exact ih (fun kw2 hk2 => h kw2 (by simp [hk2]))

/-- Facts shared by both sides of the elaborated-prefix equivalence: on an
input where `id_expression` succeeds, leading space stripping, cv parsing,
the legacy-primitive alternative and the elaborated-keyword header all
consume nothing or fail. -/
theorem id_expression_input_facts (s : List Char) (ids : List (List Char))
    (r : List Char) (hs : id_expression s = some (ids, r)) :
    space0 s = s ∧ parseCv s = (cvNone, s) ∧ legacy_name s = none ∧
      keywords elaboratedKeywords s = none := by
  have hident : ∃ t rr, identifier s = some (t, rr) := by
    simp only [id_expression] at hs
    split at hs
    next => exact absurd hs (by simp)
    next t rr heq => exact ⟨t, rr, heq⟩
  obtain ⟨t, rr, hident⟩ := hident
  have hkwnone : ∀ kw ∈ reservedKeywords, keyword kw s = none :=
    fun kw hkw => keyword_none_of_identifier kw s t rr hident hkw
  obtain ⟨c, rest, rfl, hstart⟩ := identifier_head s t rr hident
  refine ⟨?_, ?_, ?_, ?_⟩
  · simp [space0, List.dropWhile, identStart_not_space c hstart]
  · exact parseCv_none _ (hkwnone _ (by decide)) (hkwnone _ (by decide))
  · have : keywords legacyKeywords (c :: rest) = none :=
      keywords_none _ _ (fun kw hkw => hkwnone kw (by
        simp only [reservedKeywords, List.mem_append]
        exact Or.inl (Or.inl hkw)))
    simp [legacy_name, this]
  · exact keywords_none _ _ (fun kw hkw => hkwnone kw (by
      simp only [reservedKeywords, List.mem_append]
      exact Or.inl (Or.inr hkw)))

/-- type_specifier on a bare id-expression that consumes the whole input:
no cv, no legacy name, no elaborated header. -/
theorem type_specifier_of_id_expression (s : List Char)
    (ids : List (List Char)) (hs : id_expression s = some (ids, [])) :
    type_specifier s = some (⟨cvNone, .IdExpression ids⟩, []) := by
  obtain ⟨hsp, hcv, hleg, hkws⟩ := id_expression_input_facts s ids [] hs
  have hnil : parseCv (space0 ([] : List Char)) = (cvNone, []) := rfl
  simp only [type_specifier, hcv, hsp, hleg, hkws, hs, hnil]
  simp [cvUnion, cvNone]

/-- type_specifier on an id-expression preceded by an elaborated-type
keyword and a space: the hypotheses record the concrete-keyword
computations that hold by rfl for each of the five elaborated keywords. -/
theorem type_specifier_prefixed_generic (k s : List Char)
    (ids : List (List Char))
    (hs : id_expression s = some (ids, []))
    (hkc : keyword (String.data "const") (k ++ ' ' :: s) = none)
    (hkv : keyword (String.data "volatile") (k ++ ' ' :: s) = none)
    (hsp : space0 (k ++ ' ' :: s) = k ++ ' ' :: s)
    (hleg : legacy_name (k ++ ' ' :: s) = none)
    (hkws : keywords elaboratedKeywords (k ++ ' ' :: s) = some (k, ' ' :: s)) :
    type_specifier (k ++ ' ' :: s) =
      some (⟨cvNone, .IdExpression ids⟩, []) := by
  obtain ⟨hsp0s, _, _, _⟩ := id_expression_input_facts s ids [] hs
  have hcv := parseCv_none (k ++ ' ' :: s) hkc hkv
  have hsp1 : ∀ l : List Char, space1 (' ' :: l) = some (space0 l) :=
    fun l => rfl
  have hnil : parseCv (space0 ([] : List Char)) = (cvNone, []) := rfl
  simp only [type_specifier, hcv, hsp, hleg, hkws, hsp1, hsp0s, hs, hnil]
  simp [cvUnion, cvNone]

/-- C8: for an id-expression string and any elaborated-type keyword,
parsing the keyword, whitespace, then the id-expression as a type
specifier succeeds exactly as parsing the id-expression alone does, and
both produce the same `TypeSpecifier`: the prefix is consumed and
discarded. -/
theorem c8_elaborated_prefix_discarded (k s : List Char)
    (ids : List (List Char))
    (hk : k ∈ elaboratedKeywords)
    (hs : id_expression s = some (ids, [])) :
    type_specifier (k ++ ' ' :: s) = some (⟨cvNone, .IdExpression ids⟩, []) ∧
    type_specifier s = some (⟨cvNone, .IdExpression ids⟩, []) := by
  refine ⟨?_, type_specifier_of_id_expression s ids hs⟩
  simp only [elaboratedKeywords, List.mem_cons, List.not_mem_nil,
    or_false] at hk
  rcases hk with rfl | rfl | rfl | rfl | rfl <;>
    exact type_specifier_prefixed_generic _ s ids hs rfl rfl rfl rfl rfl

/-- Witness for C8: `class MyClass` and `MyClass` both parse to the same
type specifier. -/
theorem c8_elaborated_prefix_discarded_witness :
    type_specifier (String.data "class" ++ ' ' :: String.data "MyClass") =
      some (⟨cvNone, .IdExpression [String.data "MyClass"]⟩, []) ∧
    type_specifier (String.data "MyClass") =
      some (⟨cvNone, .IdExpression [String.data "MyClass"]⟩, []) :=
  c8_elaborated_prefix_discarded (String.data "class") (String.data "MyClass")
    [String.data "MyClass"] (by decide) rfl

/-- C3 failing-input evaluation: on `ab語` (display width 4) with
`max_cols = 3` the source's `truncate_string` returns the bytes of `a…a`:
the part after the ellipsis re-emits the header `a` — `last_good` is
carried over from the header scan because the first valid trailer
candidate `語` is already wider than the 1-column trailer budget — and
that part is not a suffix of the input, contradicting the claimed
prefix-ellipsis-suffix decomposition. -/
theorem c3_truncate_string_trailer_not_suffix :
    truncate_string c3Input 3 = some ([0x61] ++ ellipsisBytes ++ [0x61]) ∧
    bytesWidth c3Input = 4 ∧
    List.isSuffixOf [0x61] c3Input = false := by
  refine ⟨rfl, rfl, rfl⟩

/-- Display widths never exceed 2 columns. -/
theorem charWidth_le_two (c : Nat) : charWidth c ≤ 2 := by
  rw [charWidth]
  split_ifs <;> omega

/-- Wide code points lie at or above U+1100. -/
theorem wide_lower (c : Nat) (h : inRanges wideRanges c = true) :
    0x1100 ≤ c := by
  simp [inRanges, wideRanges] at h
  omega

/-- ASCII code points occupy at most one column. -/
theorem charWidth_ascii (c : Nat) (h : c < 0x80) : charWidth c ≤ 1 := by
  rw [charWidth]
  rcases h0 : inRanges zeroRanges c with _ | _
  · rcases h2 : inRanges wideRanges c with _ | _
    · simp
    · have := wide_lower c h2
      omega
  · simp

/-- One UTF-8 decode step consumes at least one byte, and at least as many
bytes as the decoded code point's display width. -/
theorem utf8DecodeOne_length (l : List Nat) (cp : Nat) (r : List Nat)
    (h : utf8DecodeOne l = some (cp, r)) :
    r.length < l.length ∧ charWidth cp + r.length ≤ l.length := by
  cases l with
  | nil => simp [utf8DecodeOne] at h
  | cons b rest =>
    simp only [utf8DecodeOne] at h
    split at h
    next h1 =>
      simp only [Option.some.injEq, Prod.mk.injEq] at h
      obtain ⟨hcp, hrr⟩ := h
      subst hrr
      subst hcp
      have := charWidth_ascii b h1
      simp only [List.length_cons]
      omega
    next h1 =>
      split at h
      next => exact absurd h (by simp)
      next =>
        split at h
        next =>
          split at h
          next c1 rr =>
            split at h
            next =>
              simp only [Option.some.injEq, Prod.mk.injEq] at h
              obtain ⟨hcp, hrr⟩ := h
              subst hrr
              have := charWidth_le_two cp
              simp only [List.length_cons]
              omega
            next => exact absurd h (by simp)
          next => exact absurd h (by simp)
        next =>
          split at h
          next =>
            split at h
            next c1 c2 rr =>
              split at h
              next =>
                simp only [Option.some.injEq, Prod.mk.injEq] at h
                obtain ⟨hcp, hrr⟩ := h
                subst hrr
                have := charWidth_le_two cp
                simp only [List.length_cons]
                omega
              next => exact absurd h (by simp)
            next => exact absurd h (by simp)
          next =>
            split at h
            next =>
              split at h
              next c1 c2 c3 rr =>
                split at h
                next =>
                  simp only [Option.some.injEq, Prod.mk.injEq] at h
                  obtain ⟨hcp, hrr⟩ := h
                  subst hrr
                  have := charWidth_le_two cp
                  simp only [List.length_cons]
                  omega
                next => exact absurd h (by simp)
              next => exact absurd h (by simp)
            next => exact absurd h (by simp)

/-- The fuel of `utf8DecodeF` is irrelevant once it covers the input
length. -/
theorem utf8DecodeF_fuel (f1 : Nat) : ∀ (f2 : Nat) (l : List Nat),
    l.length ≤ f1 → l.length ≤ f2 → utf8DecodeF f1 l = utf8DecodeF f2 l := by
  induction f1 with
  | zero =>
    intro f2 l h1 _
    have : l = [] := List.length_eq_zero.mp (Nat.le_zero.mp h1)
    subst this
    cases f2 <;> rfl
  | succ f1 ih =>
    intro f2 l h1 h2
    cases l with
    | nil => cases f2 <;> rfl
    | cons b rest =>
      cases f2 with
      | zero => simp at h2
      | succ f2 =>
        rcases hone : utf8DecodeOne (b :: rest) with _ | ⟨cp, r⟩
        · simp only [utf8DecodeF, hone]
        · have hlen := (utf8DecodeOne_length _ _ _ hone).1
          simp only [List.length_cons] at hlen h1 h2
          simp only [utf8DecodeF, hone]
          rw [ih f2 r (by omega) (by omega)]

/-- Unfolding `utf8Decode` by one successful decode step. -/
theorem utf8Decode_step (l : List Nat) (cp : Nat) (r : List Nat)
    (h : utf8DecodeOne l = some (cp, r)) :
    utf8Decode l = (utf8Decode r).map (cp :: ·) := by
  cases l with
  | nil => simp [utf8DecodeOne] at h
  | cons b rest =>
    have hlen := (utf8DecodeOne_length _ _ _ h).1
    simp only [List.length_cons] at hlen
    simp only [utf8Decode, List.length_cons, utf8DecodeF, h]
    rw [utf8DecodeF_fuel rest.length r.length r (by omega) (by omega)]

/-- Unfolding `utf8Decode` by one failing decode step. -/
theorem utf8Decode_step_none (l : List Nat) (hne : l ≠ [])
    (h : utf8DecodeOne l = none) : utf8Decode l = none := by
  cases l with
  | nil => exact absurd rfl hne
  | cons b rest => simp only [utf8Decode, List.length_cons, utf8DecodeF, h]

/-- The display width of a decoded byte string never exceeds its byte
length. -/
theorem width_le_length (l : List Nat) (cps : List Nat)
    (h : utf8Decode l = some cps) : listWidth cps ≤ l.length := by
  have main : ∀ (n : Nat) (l2 cps2 : List Nat), l2.length ≤ n →
      utf8Decode l2 = some cps2 → listWidth cps2 ≤ l2.length := by
    intro n
    induction n with
    | zero =>
      intro l2 cps2 h1 h2
      have : l2 = [] := List.length_eq_zero.mp (Nat.le_zero.mp h1)
      subst this
      have hnil : utf8Decode ([] : List Nat) = some [] := rfl
      rw [hnil, Option.some.injEq] at h2
      subst h2
      simp [listWidth]
    | succ n ih =>
      intro l2 cps2 h1 h2
      cases l2 with
      | nil =>
        have hnil : utf8Decode ([] : List Nat) = some [] := rfl
        rw [hnil, Option.some.injEq] at h2
        subst h2
        simp [listWidth]
      | cons b rest =>
        rcases hone : utf8DecodeOne (b :: rest) with _ | ⟨cp, r⟩
        · rw [utf8Decode_step_none _ (by simp) hone] at h2
          exact absurd h2 (by simp)
        · rw [utf8Decode_step _ _ _ hone] at h2
          rcases hmap : utf8Decode r with _ | cps3
          · rw [hmap] at h2
            exact absurd h2 (by simp)
          · rw [hmap] at h2
            simp at h2
            subst h2
            obtain ⟨hlt, hw⟩ := utf8DecodeOne_length _ _ _ hone
            have hr := ih r cps3 (by simp only [List.length_cons] at h1 hlt; omega) hmap
            simp only [listWidth, List.map_cons, List.sum_cons] at *
            omega
  exact main l.length l cps le_rfl h

/-- Decoding a leading ASCII byte. -/
theorem utf8Decode_ascii_cons (b : Nat) (hb : b < 0x80) (l : List Nat) :
    utf8Decode (b :: l) = (utf8Decode l).map (b :: ·) := by
  apply utf8Decode_step
  simp only [utf8DecodeOne, if_pos hb]

/-- Decoding a leading combining-accent byte pair. -/
theorem utf8Decode_mark_cons (l : List Nat) :
    utf8Decode (0xCC :: 0x81 :: l) = (utf8Decode l).map (0x301 :: ·) := by
  apply utf8Decode_step
  rfl

/-- Decoding a run of combining accents prepends the corresponding run of
U+0301 code points. -/
theorem utf8Decode_marks (n : Nat) : ∀ l : List Nat,
    utf8Decode (marks n ++ l) =
      (utf8Decode l).map (List.replicate n 0x301 ++ ·) := by
  induction n with
  | zero =>
    intro l
    simp [marks]
  | succ n ih =>
    intro l
    simp only [marks, List.cons_append, utf8Decode_mark_cons, ih,
      Option.map_map]
    rcases utf8Decode l with _ | cps
    · rfl
    · simp [List.replicate_succ, Function.comp]

/-- A mark run followed by a dangling lead byte is invalid UTF-8. -/
theorem utf8Decode_marks_dangling (n : Nat) :
    utf8Decode (marks n ++ [0xCC]) = none := by
  rw [utf8Decode_marks n [0xCC]]
  have : utf8Decode [0xCC] = none := rfl
  rw [this]
  rfl

/-- Decoding a run of ASCII `b` bytes. -/
theorem utf8Decode_replicate_b (n : Nat) :
    utf8Decode (List.replicate n 0x62) = some (List.replicate n 0x62) := by
  induction n with
  | zero => rfl
  | succ n ih =>
    rw [List.replicate_succ, utf8Decode_ascii_cons 0x62 (by norm_num), ih]
    rfl

/-- Length of a mark run. -/
theorem marks_length (n : Nat) : (marks n).length = 2 * n := by
  induction n with
  | zero => rfl
  | succ n ih => simp [marks, ih]; omega

/-- Width of an appended list. -/
theorem listWidth_append (a b : List Nat) :
    listWidth (a ++ b) = listWidth a + listWidth b := by
  simp [listWidth]

/-- Width of a replicated code point. -/
theorem listWidth_replicate (n c : Nat) :
    listWidth (List.replicate n c) = n * charWidth c := by
  induction n with
  | zero => simp [listWidth]
  | succ n ih =>
    simp only [List.replicate_succ, listWidth, List.map_cons, List.sum_cons]
    simp only [listWidth] at ih
    rw [ih]
    ring

/-- Taking an even number of bytes from a mark run yields a shorter mark
run. -/
theorem take_marks_even (q : Nat) : ∀ (n : Nat) (l : List Nat), q ≤ n →
    (marks n ++ l).take (2 * q) = marks q := by
  induction q with
  | zero => intro n l _; simp [marks]
  | succ q ih =>
    intro n l hq
    cases n with
    | zero => omega
    | succ n =>
      have h2 : 2 * (q + 1) = (2 * q) + 1 + 1 := by ring
      simp only [marks, List.cons_append, h2, List.take_succ_cons]
      rw [ih n l (by omega)]

/-- Taking an odd number of bytes from a mark run yields a shorter mark
run plus a dangling lead byte. -/
theorem take_marks_odd (q : Nat) : ∀ (n : Nat) (l : List Nat), q < n →
    (marks n ++ l).take (2 * q + 1) = marks q ++ [0xCC] := by
  induction q with
  | zero =>
    intro n l hq
    cases n with
    | zero => omega
    | succ n => simp [marks]
  | succ q ih =>
    intro n l hq
    cases n with
    | zero => omega
    | succ n =>
      have h2 : 2 * (q + 1) + 1 = (2 * q + 1) + 1 + 1 := by ring
      simp only [marks, List.cons_append, h2, List.take_succ_cons]
      rw [ih n l (by omega)]

/-- Width of a cons. -/
theorem listWidth_cons (c : Nat) (l : List Nat) :
    listWidth (c :: l) = charWidth c + listWidth l := by
  simp [listWidth]

/-- Byte length of the adversarial input. -/
theorem c10Input_length : c10Input.length = 102769 := by
  rw [c10Input, List.length_cons, List.length_append, marks_length,
    List.length_replicate]

/-- The adversarial input is valid UTF-8 and decodes to `c10Cps`. -/
theorem c10Input_decode : utf8Decode c10Input = some c10Cps := by
  rw [c10Input, utf8Decode_ascii_cons 0x61 (by norm_num), utf8Decode_marks,
    utf8Decode_replicate_b, Option.map_some', Option.map_some', c10Cps]

/-- Display width of the adversarial input: one `a`, zero-width accents,
seventy thousand `b`s. -/
theorem c10Cps_width : listWidth c10Cps = 70001 := by
  rw [c10Cps, listWidth_cons, listWidth_append, listWidth_replicate,
    listWidth_replicate]
  norm_num [show charWidth 0x61 = 1 from by decide,
    show charWidth 0x301 = 0 from by decide,
    show charWidth 0x62 = 1 from by decide]

/-- Every prefix of the adversarial input that the u16 byte counter can
reach decodes (when valid) to a fragment of display width at most the
header budget 32767. -/
theorem c10_take_width (m : Nat) (hble : m + 1 ≤ 65535) (cps : List Nat)
    (h : utf8Decode (c10Input.take (m + 1)) = some cps) :
    listWidth cps ≤ 32767 := by
  have htake : c10Input.take (m + 1) =
      0x61 :: ((marks 16384 ++ List.replicate 70000 0x62).take m) := by
    rw [c10Input, List.take_succ_cons]
  rw [htake, utf8Decode_ascii_cons 0x61 (by norm_num)] at h
  rcases hdec : utf8Decode ((marks 16384 ++ List.replicate 70000 0x62).take m)
    with _ | cps2
  · rw [hdec] at h
    exact absurd h (by simp)
  · rw [hdec] at h
    simp only [Option.map_some'] at h
    have hcps : cps = 0x61 :: cps2 := by
      rw [← Option.some.injEq]
      exact h.symm
    subst hcps
    rw [listWidth_cons, show charWidth 0x61 = 1 from by decide]
    suffices hs : listWidth cps2 ≤ 32766 by omega
    by_cases hm : m ≤ 32768
    · rcases Nat.even_or_odd m with ⟨q, hq⟩ | ⟨q, hq⟩
      · rw [show m = 2 * q from by omega,
          take_marks_even q 16384 _ (by omega)] at hdec
        have hd2 : utf8Decode (marks q) = some (List.replicate q 0x301) := by
          have h0 := utf8Decode_marks q []
          rw [List.append_nil] at h0
          rw [h0, show utf8Decode ([] : List Nat) = some [] from rfl,
            Option.map_some', List.append_nil]
        rw [hd2, Option.some.injEq] at hdec
        rw [← hdec, listWidth_replicate,
          show charWidth 0x301 = 0 from by decide]
        omega
      · rw [show m = 2 * q + 1 from by omega,
          take_marks_odd q 16384 _ (by omega),
          utf8Decode_marks_dangling] at hdec
        exact absurd hdec (by simp)
    · have htk : (marks 16384 ++ List.replicate 70000 0x62).take m =
          marks 16384 ++ List.replicate (m - 32768) 0x62 := by
        rw [List.take_append_eq_append_take,
          List.take_of_length_le (by rw [marks_length]; omega),
          marks_length, List.take_replicate, min_eq_left (by omega)]
      rw [htk, utf8Decode_marks, utf8Decode_replicate_b,
        Option.map_some', Option.some.injEq] at hdec
      rw [← hdec, listWidth_append, listWidth_replicate, listWidth_replicate,
        show charWidth 0x301 = 0 from by decide,
        show charWidth 0x62 = 1 from by decide]
      omega

/-- On the adversarial input with header budget 32767, the header scan
never breaks within the u16 counter range, so it runs out and panics. -/
theorem headerLoop_c10_none (f : Nat) : ∀ (lg : List Nat) (hb : Nat),
    hb + f = 65536 → 32767 ≤ hb →
    headerLoop c10Input 32767 f lg hb = none := by
  induction f with
  | zero => intro lg hb _ _; rfl
  | succ f ih =>
    intro lg hb hsum hge
    obtain ⟨m, rfl⟩ : ∃ m, hb = m + 1 := ⟨hb - 1, by omega⟩
    have hguard : ¬(c10Input.length < m + 1) := by rw [c10Input_length]; omega
    rcases hdec : utf8Decode (c10Input.take (m + 1)) with _ | cps
    · simp only [headerLoop, if_neg hguard, hdec]
      exact ih lg (m + 2) (by omega) (by omega)
    · have hw := c10_take_width m (by omega) cps hdec
      simp only [headerLoop, if_neg hguard, hdec,
        if_neg (by omega : ¬(32767 < listWidth cps))]
      exact ih (c10Input.take (m + 1)) (m + 2) (by omega) (by omega)

/-- For a valid input wider than the header budget, the header scan always
breaks before exceeding the input length (and the u16 range, when the
input is at most 65535 bytes long). -/
theorem headerLoop_some (bytes : List Nat) (cols : Nat) (cps : List Nat)
    (hdec : utf8Decode bytes = some cps) (hcols : cols < listWidth cps)
    (hlen : bytes.length ≤ 65535) (f : Nat) : ∀ (lg : List Nat) (hb : Nat),
    hb + f = 65536 → hb ≤ bytes.length →
    (headerLoop bytes cols f lg hb).isSome = true := by
  induction f with
  | zero =>
    intro lg hb hsum hle
    exfalso
    omega
  | succ f ih =>
    intro lg hb hsum hle
    have hguard : ¬(bytes.length < hb) := by omega
    rcases hdec2 : utf8Decode (bytes.take hb) with _ | cpsh
    · have hblt : hb < bytes.length := by
        rcases Nat.lt_or_ge hb bytes.length with h | h
        · exact h
        · exfalso
          have heq : hb = bytes.length := by omega
          rw [heq, List.take_length, hdec] at hdec2
          exact absurd hdec2 (by simp)
      simp only [headerLoop, if_neg hguard, hdec2]
      exact ih lg (hb + 1) (by omega) (by omega)
    · by_cases hw : cols < listWidth cpsh
      · simp only [headerLoop, if_neg hguard, hdec2, if_pos hw,
          Option.isSome_some]
      · have hblt : hb < bytes.length := by
          rcases Nat.lt_or_ge hb bytes.length with h | h
          · exact h
          · exfalso
            have heq : hb = bytes.length := by omega
            rw [heq, List.take_length, hdec] at hdec2
            rw [Option.some.injEq] at hdec2
            rw [← hdec2] at hw
            exact hw hcols
        simp only [headerLoop, if_neg hguard, hdec2, if_neg hw]
        exact ih (bytes.take hb) (hb + 1) (by omega) (by omega)

/-- For a valid input wider than the trailer budget, the trailer scan
always breaks at or before start index zero. -/
theorem trailerLoop_some (bytes : List Nat) (tc : Nat) (cps : List Nat)
    (hdec : utf8Decode bytes = some cps) (htc : tc < listWidth cps)
    (t : Nat) : ∀ lg : List Nat,
    (trailerLoop bytes tc lg t).isSome = true := by
  induction t with
  | zero =>
    intro lg
    simp only [trailerLoop, List.drop_zero, hdec, if_pos htc,
      Option.isSome_some]
  | succ t ih =>
    intro lg
    rcases hdec2 : utf8Decode (bytes.drop (t + 1)) with _ | w
    · simp only [trailerLoop, hdec2]
      exact ih lg
    · by_cases hw : tc < listWidth w
      · simp only [trailerLoop, hdec2, if_pos hw, Option.isSome_some]
      · simp only [trailerLoop, hdec2, if_neg hw]
        exact ih (bytes.drop (t + 1))

/-- C10 counterexample: the 102769-byte input `c10Input` satisfies the
claim's precondition (valid UTF-8, display width 70001 exceeding
`max_cols = 65535`), yet `truncate_string` does not terminate normally on
it: the header scan's u16 byte counter overflows (a panic in debug builds,
an endless loop in release builds), modelled as `none`. -/
theorem c10_truncate_string_u16_overflow :
    utf8Decode c10Input = some c10Cps ∧
    listWidth c10Cps = 70001 ∧
    truncate_string c10Input 65535 = none := by
  refine ⟨c10Input_decode, c10Cps_width, ?_⟩
  rw [truncate_string, if_neg (by norm_num : ¬(65535 = 0))]
  have e1 : (65535 - 1) / 2 = 32767 := by norm_num
  rw [e1]
  have e2 : 65535 - 1 - 32767 = 32767 := by norm_num
  rw [e2]
  have e3 : 65536 - 32767 = 32769 := by norm_num
  rw [e3]
  rw [headerLoop_c10_none 32769 [] 32767 (by norm_num) (by norm_num)]

/-- C10 amended: under the precondition (`max_cols ≥ 1`, display width
exceeding `max_cols`) and additionally an input of at most 65535 bytes —
so the header scan's u16 byte counter cannot overflow — `truncate_string`
terminates normally: the subtractions never underflow, the scan indices
stay in bounds, and no panic occurs. -/
theorem c10_amended_no_panic_bounded_input (bytes cps : List Nat)
    (max_cols : Nat) (hdec : utf8Decode bytes = some cps)
    (h1 : 1 ≤ max_cols) (h2 : max_cols ≤ 65535)
    (hw : max_cols < listWidth cps) (hlen : bytes.length ≤ 65535) :
    ∃ out, truncate_string bytes max_cols = some out := by
  have hwl := width_le_length bytes cps hdec
  have hdiv : (max_cols - 1) / 2 ≤ max_cols - 1 := Nat.div_le_self _ _
  simp only [truncate_string]
  rw [if_neg (by omega : ¬(max_cols = 0))]
  have hh := headerLoop_some bytes (max_cols - 1 - (max_cols - 1) / 2) cps
    hdec (by omega) hlen (65536 - (max_cols - 1 - (max_cols - 1) / 2)) []
    (max_cols - 1 - (max_cols - 1) / 2) (by omega) (by omega)
  obtain ⟨lg1, hlg1⟩ := Option.isSome_iff_exists.mp hh
  simp only [hlg1]
  rw [if_neg (by omega : ¬(bytes.length < (max_cols - 1) / 2))]
  have ht := trailerLoop_some bytes ((max_cols - 1) / 2) cps hdec (by omega)
    (bytes.length - (max_cols - 1) / 2) lg1
  obtain ⟨lg2, hlg2⟩ := Option.isSome_iff_exists.mp ht
  simp only [hlg2]
  exact ⟨lg1 ++ ellipsisBytes ++ lg2, rfl⟩

/-- Witness for the amended C10: a 4-byte, width-4 input truncated to 2
columns terminates normally. -/
theorem c10_amended_no_panic_bounded_input_witness :
    ∃ out, truncate_string [0x61, 0x62, 0x63, 0x64] 2 = some out :=
  c10_amended_no_panic_bounded_input [0x61, 0x62, 0x63, 0x64]
    [0x61, 0x62, 0x63, 0x64] 2 rfl (by norm_num) (by norm_num) (by decide)
    (by norm_num)

end Crofiler
